import Mathlib

/-!
Shallow embedding of the subscription-billing bot (src/bot.py) and proofs
about its subscription lifecycle, promo pricing, sweep, manual-payment
review and price parsing/formatting helpers.

Conventions of the embedding:
* SQLite rows become Lean structures, tables become lists of rows.
* Unix timestamps and SQL integers are `Int`; SQL NULL is `Option`.
* The configured local time zone is Europe/Minsk, a fixed UTC+3 zone for
  all modern dates, so `LOCAL_TZ.localize(datetime(...)).timestamp()` is
  modelled by a civil-calendar-to-epoch conversion minus the 3h offset.
* Outbound platform calls (unban, invite-link creation, messages) have no
  effect on the database; their observable outcomes are threaded in as
  inputs (`ActEnv.inviteResult`) or recorded as effect outputs.
-/

/-- A local-time calendar datetime, as produced by `now_local()` /
`datetime(...)` in bot.py. -/
structure LocalDT where
  year : Int
  month : Int
  day : Int
  hour : Int
  minute : Int
  second : Int
deriving Repr, DecidableEq

/-- Days since 1970-01-01 of a proleptic-Gregorian civil date
(the standard era-based algorithm used by C++/Python date libraries). -/
def daysFromCivil (y m d : Int) : Int :=
  let y2 := if m ≤ 2 then y - 1 else y
  let era := Int.fdiv y2 400
  let yoe := y2 - era * 400
  let mp := if 2 < m then m - 3 else m + 9
  let doy := Int.fdiv (153 * mp + 2) 5 + d - 1
  let doe := yoe * 365 + Int.fdiv yoe 4 - Int.fdiv yoe 100 + doy
  era * 146097 + doe - 719468

/-- Epoch seconds of a local (Europe/Minsk, UTC+3) wall-clock datetime:
models `int(LOCAL_TZ.localize(datetime(y, m, d, hh, mi, ss)).timestamp())`
from bot.py (LOCAL_TZ is `pytz.timezone("Europe/Minsk")`, line 49). -/
def localTs (y m d hh mi ss : Int) : Int :=
  daysFromCivil y m d * 86400 + hh * 3600 + mi * 60 + ss - 3 * 3600

/-- Epoch seconds of a `LocalDT`. -/
def LocalDT.ts (t : LocalDT) : Int :=
  localTs t.year t.month t.day t.hour t.minute t.second

/-- The month strictly after month `m` of year `y`, with December wrapping
to January of the following year (bot.py lines 529-534). -/
def nextPeriod (m y : Int) : Int × Int :=
  if m = 12 then (1, y + 1) else (m + 1, y)

/-- The subscription end timestamp computed by `activate_subscription`
(bot.py lines 527-537): the 5th day of the month after `(m, y)` at
23:59:59 local time. -/
def endOfPeriodTs (m y : Int) : Int :=
  let p := nextPeriod m y
  localTs p.2 p.1 5 23 59 59

/-- A row of the `plans` table (the columns read by the modelled code). -/
structure Plan where
  id : Nat
  price_cents : Int
  title : String
  group_id : Option Int
deriving Repr, DecidableEq

/-- A row of the `subscriptions` table. -/
structure SubRow where
  id : Nat
  user_id : Int
  plan_id : Nat
  start_ts : Int
  end_ts : Int
  invite_link : Option String
  active : Bool
  removed : Bool
  group_id : Option Int
  payment_type : String
  current_period_month : Int
  current_period_year : Int
  part_paid : String
  next_payment_date : Option Int
  last_notification_ts : Option Int
deriving Repr, DecidableEq

/-- A row of the `users` table (the columns read by the modelled code). -/
structure UserRow where
  user_id : Int
  username : Option String
deriving Repr, DecidableEq

/-- A row of the `manual_payments` table (the columns read/written by the
modelled code). -/
structure ManualPayment where
  id : Nat
  user_id : Int
  plan_id : Nat
  amount_cents : Int
  payment_type : String
  status : String
  admin_id : Option Int
  reviewed_ts : Option Int
deriving Repr, DecidableEq

/-- A row of the `promo_codes` table. -/
structure Promo where
  promo_id : Nat
  code : String
  discount_percent : Option Int
  discount_fixed_cents : Option Int
  is_active : Bool
  used_count : Int
  max_uses : Option Int
  expires_ts : Option Int
deriving Repr, DecidableEq

/-- The database state shared by all handlers. `nextSubId` models the
SQLite autoincrement id for `subscriptions` inserts. -/
structure DB where
  plans : List Plan
  subscriptions : List SubRow
  users : List UserRow
  manual_payments : List ManualPayment
  nextSubId : Nat
deriving Repr, DecidableEq

/-- `SELECT price_cents, title, group_id FROM plans WHERE id=?`
(bot.py lines 488-491). -/
def findPlan (db : DB) (pid : Nat) : Option Plan :=
  db.plans.find? (fun p => p.id == pid)

/-- The row filter of the existing-subscription query
`WHERE user_id=? AND plan_id=? AND active=1` (bot.py lines 515-523). -/
def isActiveFor (u : Int) (p : Nat) (s : SubRow) : Bool :=
  s.user_id == u && s.plan_id == p && s.active

/-- `ORDER BY id DESC LIMIT 1`: the row with the greatest id. -/
def maxById (l : List SubRow) : Option SubRow :=
  l.foldl
    (fun acc s =>
      match acc with
      | none => some s
      | some t => if t.id < s.id then some s else some t)
    none

/-- The existing active subscription row selected by bot.py lines 515-525. -/
def latestActiveSub (subs : List SubRow) (u : Int) (p : Nat) : Option SubRow :=
  maxById (subs.filter (isActiveFor u p))

/-- `plan_group_id if plan_group_id else group_id` (bot.py line 500);
group ids in this system are nonzero chat ids, so Python truthiness on
them coincides with non-NULL. -/
def resolveTargetGroup (plan_group_id group_id : Option Int) : Option Int :=
  match plan_group_id with
  | some g => some g
  | none => group_id

/-- The environment of one `activate_subscription` call: the local
wall-clock `now` (`now_local()`), the epoch clock `nowTs`
(`int(time.time())`) and the outcome of the platform invite-link call
(`create_chat_invite_link_one_time` returns the link, or `none` after any
API failure — bot.py lines 354-372 catch every exception and return None). -/
structure ActEnv where
  now : LocalDT
  nowTs : Int
  inviteResult : Option String
deriving Repr, DecidableEq

/-- Observable platform side effects of one `activate_subscription` call:
the (group, user) of the best-effort unban attempt, if reached, and the
group for which an invite link was requested, if reached. -/
structure ActEffects where
  unbanAttempted : Option (Int × Int)
  inviteRequested : Option Int
deriving Repr, DecidableEq

/-- The Python return value of `activate_subscription`: `(False, errMsg)`
or `(True, invite_link)` where the link may be None. -/
structure ActResult where
  ok : Bool
  result : Option String
deriving Repr, DecidableEq

/-- The SET clause of the idempotent re-invite UPDATE
(bot.py lines 562-569): only `invite_link` and `last_notification_ts`
change. -/
def refreshLink (invite : Option String) (s : SubRow) : SubRow :=
  { s with invite_link := invite, last_notification_ts := none }

/-- The SET clause of the renewal UPDATE (bot.py lines 574-592). -/
def renewRow (cm cy nowTs endTs : Int) (invite : Option String)
    (pt : String) (s : SubRow) : SubRow :=
  { s with current_period_month := cm, current_period_year := cy,
           part_paid := "full", start_ts := nowTs, end_ts := endTs,
           invite_link := invite, last_notification_ts := none,
           active := true, removed := false, payment_type := pt }

/-- The row INSERTed for a brand-new subscription (bot.py lines 595-614). -/
def insertedRow (subId : Nat) (u : Int) (p : Nat) (nowTs endTs : Int)
    (invite : Option String) (g0 : Int) (pt : String) (cm cy : Int) : SubRow :=
  ⟨subId, u, p, nowTs, endTs, invite, true, false, some g0, pt, cm, cy,
   "full", some endTs, none⟩

/-- `activate_subscription(user_id, plan_id, payment_type, group_id, ...)`
(bot.py lines 484-617):
1. look the plan up; missing plan fails with "Тариф не найден" before any
   side effect;
2. resolve the target group (plan's group, else the caller hint); missing
   group fails before any side effect;
3. best-effort unban, then compute `end_ts` = 5th of the next month at
   23:59:59 local, request a one-time invite link;
4. if an active row exists for (user, plan): when it is already paid for
   the current period (`part_paid='full'`, period = current, unexpired)
   only `invite_link` is replaced and `last_notification_ts` cleared;
   otherwise the same row is overwritten with the new period, dates, link
   and flags `active=1, removed=0`;
5. otherwise a new row is inserted with `part_paid='full'` and the current
   period. -/
def activate_subscription (db : DB) (env : ActEnv) (user_id : Int)
    (plan_id : Nat) (payment_type : String) (group_id : Option Int) :
    ActResult × DB × ActEffects :=
  match findPlan db plan_id with
  | none => (⟨false, some "Тариф не найден"⟩, db, ⟨none, none⟩)
  | some plan =>
    let currentMonth := env.now.month
    let currentYear := env.now.year
    match resolveTargetGroup plan.group_id group_id with
    | none => (⟨false, some "Не указана группа для подписки"⟩, db, ⟨none, none⟩)
    | some g =>
      let eff : ActEffects := ⟨some (g, user_id), some g⟩
      let end_ts := endOfPeriodTs currentMonth currentYear
      let invite := env.inviteResult
      match latestActiveSub db.subscriptions user_id plan_id with
      | some ex =>
        if ex.current_period_month = currentMonth ∧
            ex.current_period_year = currentYear ∧
            ex.part_paid = "full" ∧ env.nowTs < ex.end_ts then
          (⟨true, invite⟩,
           { db with
               subscriptions := db.subscriptions.map (fun s =>
                 if s.id = ex.id then refreshLink invite s else s) },
           eff)
        else
          (⟨true, invite⟩,
           { db with
               subscriptions := db.subscriptions.map (fun s =>
                 if s.id = ex.id then
                   renewRow currentMonth currentYear env.nowTs end_ts invite
                     payment_type s
                 else s) },
           eff)
      | none =>
        (⟨true, invite⟩,
         { db with
             subscriptions := db.subscriptions ++
               [insertedRow db.nextSubId user_id plan_id env.nowTs end_ts
                  invite g payment_type currentMonth currentYear],
             nextSubId := db.nextSubId + 1 },
         eff)

/-- A subscription row is "paid for the current period" (spec §3): period
columns match the current period and `part_paid = 'full'`. The sweep's
SQL predicate is the negation of this together with `active=1` and an
expired `end_ts`. -/
def paidFullCurrent (cm cy : Int) (s : SubRow) : Prop :=
  s.current_period_month = cm ∧ s.current_period_year = cy ∧ s.part_paid = "full"

instance (cm cy : Int) (s : SubRow) : Decidable (paidFullCurrent cm cy s) := by
  unfold paidFullCurrent; infer_instance

/-- The WHERE clause of the sweep query (bot.py lines 5407-5422):
`active = 1 AND end_ts < now AND (month != cm OR year != cy OR
part_paid != 'full')`, intersected with the inner JOINs on `plans` and
`users` (a row whose plan or user record is missing is not selected). -/
def sweepSelects (db : DB) (cm cy nowTs : Int) (s : SubRow) : Bool :=
  s.active && decide (s.end_ts < nowTs) &&
    !(decide (paidFullCurrent cm cy s)) &&
    (findPlan db s.plan_id).isSome &&
    db.users.any (fun u => u.user_id == s.user_id)

/-- The rows fetched by the sweep query. -/
def sweepSelected (db : DB) (cm cy nowTs : Int) : List SubRow :=
  db.subscriptions.filter (sweepSelects db cm cy nowTs)

/-- `remove_unpaid_users()` (bot.py lines 5400-5483): fetch all expired,
not-fully-paid-current active rows, then for each one attempt a platform
ban (only when the row has a group) and set `active = 0, removed = 1` on
that row id. Returns the new database state together with the list of
attempted bans as `(subscription id, group id, user id)` triples. -/
def remove_unpaid_users (db : DB) (cm cy nowTs : Int) :
    DB × List (Nat × Int × Int) :=
  let sel := sweepSelected db cm cy nowTs
  let selIds := sel.map (fun s => s.id)
  ({ db with
       subscriptions := db.subscriptions.map (fun s =>
         if s.id ∈ selIds then { s with active := false, removed := true }
         else s) },
   sel.filterMap (fun s => s.group_id.map (fun g => (s.id, g, s.user_id))))

/-- The user-visible outcome of the successful-payment handler. -/
inductive PayMsg where
  | activationError : String → PayMsg
  | successMsg : Option String → PayMsg
deriving Repr, DecidableEq

/-- The activation part of `got_payment` (bot.py lines 3320-3363): the
gateway success callback invokes `activate_subscription` and sends the
user an activation-error message only when it returned failure; otherwise
it sends a success message containing whatever `result` holds (the
invite link, possibly None). -/
def got_payment (db : DB) (env : ActEnv) (user_id : Int) (plan_id : Nat)
    (payment_type : String) (group_hint : Option Int) : DB × PayMsg :=
  let r := activate_subscription db env user_id plan_id payment_type group_hint
  (r.2.1,
   if r.1.ok then PayMsg.successMsg r.1.result
   else PayMsg.activationError (r.1.result.getD ""))

/-- The admin-visible outcome of `handle_payment_review`. -/
inductive ReviewOutcome where
  | accessDenied
  | notFound
  | approvedOk : Option String → ReviewOutcome
  | approveFailed : String → ReviewOutcome
  | rejectedDone
deriving Repr, DecidableEq

/-- `SELECT ... FROM manual_payments mp ... WHERE mp.id = ? AND
mp.status = 'pending'` (bot.py lines 4856-4865); the joins to `plans` and
`users` are LEFT JOINs, so a missing plan or user does not drop the row. -/
def findPendingPayment (db : DB) (pid : Nat) : Option ManualPayment :=
  db.manual_payments.find? (fun t => t.id == pid && t.status == "pending")

/-- `handle_payment_review` (bot.py lines 4848-4930): non-admins are
refused; a ticket that is not pending is reported as not
found/already processed and nothing changes; rejection marks the pending
ticket `rejected` with the reviewing admin and timestamp; approval calls
`activate_subscription` and, only when it succeeds, marks the ticket
`approved` and notifies the user with the credential — on activation
failure only an error is shown and the ticket stays pending. -/
def handle_payment_review (db : DB) (env : ActEnv) (adminId : Int)
    (isAdmin : Bool) (isApprove : Bool) (payment_id : Nat) :
    DB × ReviewOutcome :=
  if !isAdmin then (db, ReviewOutcome.accessDenied)
  else
    match findPendingPayment db payment_id with
    | none => (db, ReviewOutcome.notFound)
    | some mp =>
      if isApprove then
        let r := activate_subscription db env mp.user_id mp.plan_id
          mp.payment_type none
        if r.1.ok then
          ({ r.2.1 with
               manual_payments := r.2.1.manual_payments.map (fun t =>
                 if t.id = payment_id then
                   { t with status := "approved", admin_id := some adminId,
                            reviewed_ts := some env.nowTs }
                 else t) },
           ReviewOutcome.approvedOk r.1.result)
        else (r.2.1, ReviewOutcome.approveFailed (r.1.result.getD ""))
      else
        ({ db with
             manual_payments := db.manual_payments.map (fun t =>
               if t.id = payment_id then
                 { t with status := "rejected", admin_id := some adminId,
                          reviewed_ts := some env.nowTs }
               else t) },
         ReviewOutcome.rejectedDone)

/-- Python truthiness of a nullable SQL integer (`if discount_percent:`):
true iff present and nonzero. -/
def pyTruthyInt : Option Int → Bool
  | none => false
  | some n => n != 0

/-- `apply_promo_code(price_cents, promo_data)` (bot.py lines 678-702):
a truthy percentage discount yields
`max(0, price - int(price * percent / 100))`; otherwise a truthy fixed
discount yields `max(0, price - fixed)`; otherwise the price is returned
unchanged with an error message. `int(x / 100)` on nonnegative ints is
truncation of the quotient, modelled exactly by `Int.tdiv` (the float
division is exact for all products below 2^53). -/
def apply_promo_code (price_cents : Int) (promo : Promo) : Int × String :=
  if pyTruthyInt promo.discount_percent then
    let d := promo.discount_percent.getD 0
    let discount := Int.tdiv (price_cents * d) 100
    (max 0 (price_cents - discount),
     "Промокод " ++ promo.code ++ " применен! Скидка " ++ toString d ++ "%")
  else if pyTruthyInt promo.discount_fixed_cents then
    let f := promo.discount_fixed_cents.getD 0
    (max 0 (price_cents - f),
     "Промокод " ++ promo.code ++ " применен!")
  else (price_cents, "Ошибка применения промокода")

/-- Python `str.strip()` with no argument: drop leading and trailing
whitespace. Strings are modelled as `List Char`. -/
def pyStrip (l : List Char) : List Char :=
  ((l.dropWhile Char.isWhitespace).reverse.dropWhile Char.isWhitespace).reverse

/-- The numeric value of a decimal digit character, `none` otherwise. -/
def digitVal (c : Char) : Option Nat :=
  if c.isDigit then some (c.toNat - 48) else none

/-- Accumulating decimal parse of a digit string; fails on the first
non-digit character. -/
def parseDigitsGo : List Char → Nat → Option Nat
  | [], acc => some acc
  | c :: cs, acc =>
    match digitVal c with
    | some d => parseDigitsGo cs (acc * 10 + d)
    | none => none

/-- Decimal parse of a nonempty all-digit string. -/
def parseDigits (l : List Char) : Option Nat :=
  match l with
  | [] => none
  | _ => parseDigitsGo l 0

/-- Python `int(s)` restricted to the shapes that occur here: optional
surrounding whitespace, an optional sign, then decimal digits; any other
input raises (modelled as `none`). -/
def pyInt (l : List Char) : Option Int :=
  match pyStrip l with
  | [] => none
  | c :: rest =>
    if c = '-' then (parseDigits rest).map (fun n => -(n : Int))
    else if c = '+' then (parseDigits rest).map (fun n => (n : Int))
    else (parseDigits (c :: rest)).map (fun n => (n : Int))

/-- Worker for `splitOnChar`, accumulating the current (reversed) piece. -/
def splitOnCharGo (sep : Char) : List Char → List Char → List (List Char)
  | [], cur => [cur.reverse]
  | c :: cs, cur =>
    if c = sep then cur.reverse :: splitOnCharGo sep cs []
    else splitOnCharGo sep cs (c :: cur)

/-- Python `s.split(sep)` for a single-character separator. -/
def splitOnChar (sep : Char) (l : List Char) : List (List Char) :=
  splitOnCharGo sep l []

/-- Python `s.ljust(2, "0")`: pad on the right with zeros to length 2. -/
def ljust2 (l : List Char) : List Char :=
  if l.length < 2 then l ++ List.replicate (2 - l.length) '0' else l

/-- `cents_from_str(s)` (bot.py lines 288-299): strip the input; if it
contains a dot, parse the part before the first dot as the whole units
and the first two characters of the part after it (right-padded with
zeros) as the fraction, returning `whole * 100 + int(frac)`; otherwise
parse the whole input as units. Any parse failure returns None. -/
def cents_from_str (l : List Char) : Option Int :=
  let s := pyStrip l
  if '.' ∈ s then
    match splitOnChar '.' s with
    | p0 :: p1 :: _ =>
      match pyInt p0, pyInt (ljust2 (p1.take 2)) with
      | some whole, some f => some (whole * 100 + f)
      | _, _ => none
    | _ => none
  else (pyInt s).map (fun n => n * 100)

/-- Canonical decimal rendering of a natural number (Python `str`/f-string
formatting of a nonnegative int). -/
def natToChars (n : Nat) : List Char :=
  if h : n < 10 then [Char.ofNat (48 + n)]
  else natToChars (n / 10) ++ [Char.ofNat (48 + n % 10)]
decreasing_by exact Nat.div_lt_self (by omega) (by omega)

/-- Python `str` of an int (f-string `{cents//100}`). -/
def intToChars (i : Int) : List Char :=
  if i < 0 then '-' :: natToChars (-i).toNat else natToChars i.toNat

/-- Python f-string `{x:02d}` for a nonnegative value: zero-pad to two
digits. -/
def pad2 (n : Nat) : List Char :=
  if n < 10 then '0' :: natToChars n else natToChars n

/-- The configured currency code: `os.environ.get("CURRENCY", "BYN")`
(bot.py line 36), modelled at its default. -/
def CURRENCY : List Char := ['B', 'Y', 'N']

/-- `price_str_from_cents(cents)` (bot.py lines 282-285):
`f"{cents//100}.{cents%100:02d} {CURRENCY}"` with None treated as 0.
Python `//` is floor division (`Int.fdiv`) and `%` returns a result in
`[0, 100)` (`Int.emod`). -/
def price_str_from_cents (cents : Option Int) : List Char :=
  let c := cents.getD 0
  intToChars (Int.fdiv c 100) ++
    '.' :: (pad2 (Int.emod c 100).toNat ++ ' ' :: CURRENCY)

/-- Primary-key uniqueness of the `subscriptions` table: all row ids are
pairwise distinct (SQLite `id INTEGER PRIMARY KEY`). -/
def IdsDistinct (subs : List SubRow) : Prop :=
  subs.Pairwise (fun a b => a.id ≠ b.id)

/-- The §3 invariant: at most one active subscription row per
(user, plan) pair — no two rows of the table are both active with the
same user and plan. -/
def AtMostOneActive (subs : List SubRow) : Prop :=
  subs.Pairwise (fun a b =>
    ¬(a.active = true ∧ b.active = true ∧ a.user_id = b.user_id ∧
      a.plan_id = b.plan_id))

/-- Every active fully-paid row's `end_ts` is the value
`activate_subscription` stamps for its period: the 5th of the following
month, 23:59:59 local. This holds in every reachable database state
(rows with `part_paid='full'` are only written by `activate_subscription`). -/
def PaidEndInv (subs : List SubRow) : Prop :=
  ∀ s ∈ subs, s.active = true → s.part_paid = "full" →
    s.end_ts = endOfPeriodTs s.current_period_month s.current_period_year

instance (subs : List SubRow) : Decidable (PaidEndInv subs) := by
  unfold PaidEndInv; infer_instance

instance (subs : List SubRow) : Decidable (IdsDistinct subs) := by
  unfold IdsDistinct
  infer_instance

instance (subs : List SubRow) : Decidable (AtMostOneActive subs) := by
  unfold AtMostOneActive
  infer_instance

/-- Two members of a pairwise-related list that are unrelated in both
orders must be the same element. -/
theorem pairwise_mem_eq {α : Type} {R : α → α → Prop} {l : List α} {a b : α}
    (hp : l.Pairwise R) (ha : a ∈ l) (hb : b ∈ l)
    (hab : ¬R a b) (hba : ¬R b a) : a = b := by
  induction l with
  | nil => cases ha
  | cons x xs ih =>
    rcases List.pairwise_cons.mp hp with ⟨hx, hxs⟩
    rcases List.mem_cons.mp ha with rfl | ha'
    · rcases List.mem_cons.mp hb with rfl | hb'
      · rfl
      · exact absurd (hx b hb') hab
    · rcases List.mem_cons.mp hb with rfl | hb'
      · exact absurd (hx a ha') hba
      · exact ih hxs ha' hb'

/-- With distinct ids, a row is determined by its id. -/
theorem idsDistinct_inj {subs : List SubRow} (h : IdsDistinct subs)
    {a b : SubRow} (ha : a ∈ subs) (hb : b ∈ subs) (hid : a.id = b.id) :
    a = b :=
  pairwise_mem_eq h ha hb (fun hne => hne hid) (fun hne => hne hid.symm)

/-- `maxById` of a nonempty list is some element of it. -/
theorem maxById_some_mem {l : List SubRow} {x : SubRow}
    (h : maxById l = some x) : x ∈ l := by
  unfold maxById at h
  suffices H : ∀ (l : List SubRow) (acc : Option SubRow) (x : SubRow),
      l.foldl (fun acc s =>
        match acc with
        | none => some s
        | some t => if t.id < s.id then some s else some t) acc = some x →
      x ∈ l ∨ acc = some x by
    rcases H l none x h with hx | hx
    · exact hx
    · cases hx
  intro l
  induction l with
  | nil => intro acc x h; exact Or.inr h
  | cons s ss ih =>
    intro acc x h
    simp only [List.foldl_cons] at h
    rcases ih _ x h with hx | hx
    · exact Or.inl (List.mem_cons_of_mem _ hx)
    · match acc with
      | none =>
        simp only at hx
        cases hx
        exact Or.inl (List.mem_cons_self _ _)
      | some t =>
        simp only at hx
        by_cases hlt : t.id < s.id
        · rw [if_pos hlt] at hx
          cases hx
          exact Or.inl (List.mem_cons_self _ _)
        · rw [if_neg hlt] at hx
          exact Or.inr hx

/-- `maxById` is `none` exactly on the empty list. -/
theorem maxById_eq_none_iff {l : List SubRow} :
    maxById l = none ↔ l = [] := by
  constructor
  · intro h
    cases l with
    | nil => rfl
    | cons s ss =>
      exfalso
      unfold maxById at h
      simp only [List.foldl_cons] at h
      suffices H : ∀ (l : List SubRow) (t : SubRow),
          l.foldl (fun acc s =>
            match acc with
            | none => some s
            | some t => if t.id < s.id then some s else some t) (some t) ≠
            none by
        exact H ss s h
      intro l
      induction l with
      | nil => intro t h; cases h
      | cons a as ih =>
        intro t h
        simp only [List.foldl_cons] at h
        by_cases hlt : t.id < a.id
        · rw [if_pos hlt] at h; exact ih _ h
        · rw [if_neg hlt] at h; exact ih _ h
  · intro h; subst h; rfl

/-- The row selected as the existing active subscription belongs to the
table, is active, and matches the queried user and plan. -/
theorem latestActiveSub_some {subs : List SubRow} {u : Int} {p : Nat}
    {ex : SubRow} (h : latestActiveSub subs u p = some ex) :
    ex ∈ subs ∧ ex.active = true ∧ ex.user_id = u ∧ ex.plan_id = p := by
  unfold latestActiveSub at h
  have hmem := maxById_some_mem h
  rcases List.mem_filter.mp hmem with ⟨hin, hact⟩
  unfold isActiveFor at hact
  simp only [Bool.and_eq_true, beq_iff_eq] at hact
  exact ⟨hin, hact.2, hact.1.1, hact.1.2⟩

/-- When the query returns no row, no row of the table is active for the
queried (user, plan). -/
theorem latestActiveSub_none {subs : List SubRow} {u : Int} {p : Nat}
    (h : latestActiveSub subs u p = none) :
    ∀ s ∈ subs, ¬(s.active = true ∧ s.user_id = u ∧ s.plan_id = p) := by
  unfold latestActiveSub at h
  have hfil := maxById_eq_none_iff.mp h
  intro s hs ⟨hact, hu, hp⟩
  have : s ∈ subs.filter (isActiveFor u p) := by
    apply List.mem_filter.mpr
    refine ⟨hs, ?_⟩
    unfold isActiveFor
    simp [hu, hp, hact]
  rw [hfil] at this
  cases this

/-- Percentage branch of `apply_promo_code` on nonnegative inputs: the
returned price is the original price minus the floored percentage
discount, clamped at 0. -/
theorem apply_promo_percent_eq (p d : Nat) (promo : Promo)
    (h1 : promo.discount_percent = some (d : Int))
    (h2 : promo.discount_fixed_cents = none) :
    (apply_promo_code (p : Int) promo).1 =
      max 0 ((p : Int) - ((p * d / 100 : Nat) : Int)) := by
  unfold apply_promo_code
  rw [h1, h2]
  by_cases hd : d = 0
  · subst hd
    simp [pyTruthyInt]
  · have htruthy : pyTruthyInt (some (d : Int)) = true := by
      simp [pyTruthyInt]
      exact_mod_cast hd
    rw [htruthy]
    simp only [if_true, Option.getD_some]
    have ht : Int.tdiv ((p : Int) * (d : Int)) 100 =
        ((p * d / 100 : Nat) : Int) := by
      calc Int.tdiv ((p : Int) * (d : Int)) 100
          = Int.tdiv ((p * d : Nat) : Int) ((100 : Nat) : Int) := by norm_cast
        _ = ((p * d / 100 : Nat) : Int) := (Int.ofNat_tdiv (p * d) 100).symm
    rw [ht]

/-- Fixed-amount branch of `apply_promo_code` on nonnegative inputs. -/
theorem apply_promo_fixed_eq (p f : Nat) (promo : Promo)
    (h1 : promo.discount_percent = none)
    (h2 : promo.discount_fixed_cents = some (f : Int)) :
    (apply_promo_code (p : Int) promo).1 = max 0 ((p : Int) - (f : Int)) := by
  unfold apply_promo_code
  rw [h1, h2]
  by_cases hf : f = 0
  · subst hf
    simp [pyTruthyInt]
  · have htruthy : pyTruthyInt (some (f : Int)) = true := by
      simp [pyTruthyInt]
      exact_mod_cast hf
    simp [pyTruthyInt, htruthy, hf]

/-- C5: `apply_promo_code` computes the discounted price as
`max(0, p - floor(p*d/100))` for a percentage-discount promo and
`max(0, p - f)` for a fixed-discount promo, for any price `p ≥ 0`,
percent `d ≥ 0` and fixed amount `f ≥ 0`. -/
theorem c5_apply_promo_code_prices (p d f : Nat) (promoP promoF : Promo)
    (hP1 : promoP.discount_percent = some (d : Int))
    (hP2 : promoP.discount_fixed_cents = none)
    (hF1 : promoF.discount_percent = none)
    (hF2 : promoF.discount_fixed_cents = some (f : Int)) :
    (apply_promo_code (p : Int) promoP).1 =
      max 0 ((p : Int) - ((p * d / 100 : Nat) : Int)) ∧
    (apply_promo_code (p : Int) promoF).1 =
      max 0 ((p : Int) - (f : Int)) :=
  ⟨apply_promo_percent_eq p d promoP hP1 hP2,
   apply_promo_fixed_eq p f promoF hF1 hF2⟩

/-- A ten-percent promo code row. -/
def promoTenPercent : Promo :=
  ⟨1, "TEN", some 10, none, true, 0, none, none⟩

/-- A fixed 100-cent promo code row. -/
def promoFixed100 : Promo :=
  ⟨2, "FIX", none, some 100, true, 0, none, none⟩

/-- Witness for C5: 10% off 1000 gives 900, 100 cents off 1000 gives
900. -/
theorem c5_witness :
    (apply_promo_code ((1000 : Nat) : Int) promoTenPercent).1 =
      max 0 (((1000 : Nat) : Int) - ((1000 * 10 / 100 : Nat) : Int)) ∧
    (apply_promo_code ((1000 : Nat) : Int) promoFixed100).1 =
      max 0 (((1000 : Nat) : Int) - ((100 : Nat) : Int)) :=
  c5_apply_promo_code_prices 1000 10 100 promoTenPercent promoFixed100
    (by rfl) (by rfl) (by rfl) (by rfl)

/-- Counterexample to C6 as stated: applying a 10% promo to price 1000
returns 900, which differs from `max(0, floor(1000*10/100)) = 100` — the
claimed formula describes the discount, not the returned price. -/
theorem c6_counterexample :
    (apply_promo_code 1000 promoTenPercent).1 = 900 ∧
    (apply_promo_code 1000 promoTenPercent).1 ≠
      max 0 ((1000 * 10 / 100 : Nat) : Int) := by
  constructor
  · rfl
  · intro h
    simp only [show ((1000 * 10 / 100 : Nat) : Int) = 100 by rfl] at h
    have : (apply_promo_code 1000 promoTenPercent).1 = 900 := by rfl
    rw [this] at h
    omega

/-- C6 (amended): for prices `p ≥ 0` and percent `d ∈ [0,100]`, the
percentage application returns `max(0, p - floor(p*d/100))`; the discount
`floor(p*d/100)` is at most `p`, and the result is at most `p`. -/
theorem c6_amended_apply_percent (p d : Nat) (promo : Promo)
    (hd : d ≤ 100)
    (h1 : promo.discount_percent = some (d : Int))
    (h2 : promo.discount_fixed_cents = none) :
    (apply_promo_code (p : Int) promo).1 =
      max 0 ((p : Int) - ((p * d / 100 : Nat) : Int)) ∧
    p * d / 100 ≤ p ∧
    (apply_promo_code (p : Int) promo).1 ≤ (p : Int) := by
  have heq := apply_promo_percent_eq p d promo h1 h2
  have hdisc : p * d / 100 ≤ p := by
    calc p * d / 100 ≤ p * 100 / 100 := by
          apply Nat.div_le_div_right
          exact Nat.mul_le_mul_left p hd
      _ = p := Nat.mul_div_cancel p (by omega)
  refine ⟨heq, hdisc, ?_⟩
  rw [heq]
  have : ((p * d / 100 : Nat) : Int) ≥ 0 := Int.ofNat_nonneg _
  have hp : ((p : Nat) : Int) ≥ 0 := Int.ofNat_nonneg _
  omega

/-- Witness for the amended C6 at `p = 1000`, `d = 10`. -/
theorem c6_amended_witness :
    (apply_promo_code ((1000 : Nat) : Int) promoTenPercent).1 =
      max 0 (((1000 : Nat) : Int) - ((1000 * 10 / 100 : Nat) : Int)) ∧
    1000 * 10 / 100 ≤ 1000 ∧
    (apply_promo_code ((1000 : Nat) : Int) promoTenPercent).1 ≤
      ((1000 : Nat) : Int) :=
  c6_amended_apply_percent 1000 10 promoTenPercent (by decide)
    (by rfl) (by rfl)

/-- C10: a plan id with no row in `plans` makes `activate_subscription`
return failure ("Тариф не найден") with the database unchanged and no
platform effect: no unban attempt and no invite-link request. -/
theorem c10_plan_not_found (db : DB) (env : ActEnv) (u : Int) (p : Nat)
    (pt : String) (g : Option Int) (h : findPlan db p = none) :
    activate_subscription db env u p pt g =
      (⟨false, some "Тариф не найден"⟩, db, ⟨none, none⟩) := by
  unfold activate_subscription
  rw [h]

/-- An empty database. -/
def dbEmpty : DB := ⟨[], [], [], [], 1⟩

/-- A sample activation environment: 2025-03-03 12:00:00 local. -/
def envMarch3 : ActEnv :=
  ⟨⟨2025, 3, 3, 12, 0, 0⟩, localTs 2025 3 3 12 0 0, some "https://t.me/+abc"⟩

/-- Witness for C10: activating an unknown plan on the empty database. -/
theorem c10_witness :
    activate_subscription dbEmpty envMarch3 42 1 "full" none =
      (⟨false, some "Тариф не найден"⟩, dbEmpty, ⟨none, none⟩) :=
  c10_plan_not_found dbEmpty envMarch3 42 1 "full" none (by rfl)

/-- `AtMostOneActive` survives an in-place update of the single row with
the id of an already-active member row, provided the update does not
change user or plan. -/
theorem amoa_map_update {subs : List SubRow} {ex : SubRow}
    (hids : IdsDistinct subs) (hone : AtMostOneActive subs)
    (hmem : ex ∈ subs) (hact : ex.active = true) (upd : SubRow → SubRow)
    (hu : ∀ s, (upd s).user_id = s.user_id)
    (hp : ∀ s, (upd s).plan_id = s.plan_id) :
    AtMostOneActive (subs.map (fun s => if s.id = ex.id then upd s else s)) := by
  unfold AtMostOneActive
  rw [List.pairwise_map]
  unfold IdsDistinct at hids
  unfold AtMostOneActive at hone
  refine (hids.and hone).imp_of_mem ?_
  intro a b ha hb hR
  obtain ⟨hneid, hnot⟩ := hR
  intro ⟨hfa, hfb, huab, hpab⟩
  have keyA : ∀ s ∈ subs,
      ((if s.id = ex.id then upd s else s).active = true → s.active = true) ∧
      (if s.id = ex.id then upd s else s).user_id = s.user_id ∧
      (if s.id = ex.id then upd s else s).plan_id = s.plan_id := by
    intro s hs
    by_cases h : s.id = ex.id
    · have hse : s = ex := idsDistinct_inj hids hs hmem h
      subst hse
      simp [h, hu, hp, hact]
    · simp [h]
  obtain ⟨haA, haU, haP⟩ := keyA a ha
  obtain ⟨hbA, hbU, hbP⟩ := keyA b hb
  exact hnot ⟨haA hfa, hbA hfb, by rw [← haU, ← hbU]; exact huab,
    by rw [← haP, ← hbP]; exact hpab⟩

/-- `AtMostOneActive` survives appending a fresh active row for a
(user, plan) pair that has no active row yet. -/
theorem amoa_append {subs : List SubRow} (hone : AtMostOneActive subs)
    {u : Int} {p : Nat}
    (hnone : ∀ s ∈ subs, ¬(s.active = true ∧ s.user_id = u ∧ s.plan_id = p))
    (r : SubRow) (hru : r.user_id = u) (hrp : r.plan_id = p) :
    AtMostOneActive (subs ++ [r]) := by
  unfold AtMostOneActive at *
  rw [List.pairwise_append]
  refine ⟨hone, List.pairwise_singleton _ _, ?_⟩
  intro a ha b hb
  have hb' : b = r := by simpa using hb
  subst hb'
  intro ⟨haA, hbA, huab, hpab⟩
  exact hnone a ha ⟨haA, by rw [huab, hru], by rw [hpab, hrp]⟩

/-- `AtMostOneActive` survives any row map that never activates a row and
does not change users or plans. -/
theorem amoa_map_mono {subs : List SubRow} (hone : AtMostOneActive subs)
    (f : SubRow → SubRow)
    (hu : ∀ s, (f s).user_id = s.user_id)
    (hp : ∀ s, (f s).plan_id = s.plan_id)
    (ha : ∀ s, (f s).active = true → s.active = true) :
    AtMostOneActive (subs.map f) := by
  unfold AtMostOneActive at *
  rw [List.pairwise_map]
  refine hone.imp ?_
  intro a b hnot
  intro ⟨hfa, hfb, hu2, hp2⟩
  exact hnot ⟨ha a hfa, ha b hfb, by rw [← hu a, ← hu b]; exact hu2,
    by rw [← hp a, ← hp b]; exact hp2⟩

/-- Case analysis on the subscription rows produced by
`activate_subscription`: they are unchanged (failure), an in-place
user/plan-preserving update of the selected active row (renewal paths),
or the original rows plus one new active row for a pair that had no
active row. -/
theorem activate_subs_shape (db : DB) (env : ActEnv) (u : Int) (p : Nat)
    (pt : String) (g : Option Int) :
    (activate_subscription db env u p pt g).2.1.subscriptions =
        db.subscriptions ∨
    (∃ (ex : SubRow) (upd : SubRow → SubRow),
      latestActiveSub db.subscriptions u p = some ex ∧
      (∀ s : SubRow, (upd s).user_id = s.user_id ∧ (upd s).plan_id = s.plan_id) ∧
      (activate_subscription db env u p pt g).2.1.subscriptions =
        db.subscriptions.map (fun s => if s.id = ex.id then upd s else s)) ∨
    (∃ r : SubRow, latestActiveSub db.subscriptions u p = none ∧
      r.user_id = u ∧ r.plan_id = p ∧ r.active = true ∧
      (activate_subscription db env u p pt g).2.1.subscriptions =
        db.subscriptions ++ [r]) := by
  unfold activate_subscription
  split
  · exact Or.inl rfl
  rename_i plan hplan
  split
  · exact Or.inl rfl
  rename_i g0 hg
  split
  · rename_i ex hlast
    dsimp only
    split_ifs with hcond
    · exact Or.inr (Or.inl ⟨ex,
        (fun s => { s with invite_link := env.inviteResult,
                           last_notification_ts := none }),
        hlast, fun s => ⟨rfl, rfl⟩, rfl⟩)
    · exact Or.inr (Or.inl ⟨ex,
        (fun s =>
          { s with
              current_period_month := env.now.month,
              current_period_year := env.now.year,
              part_paid := "full", start_ts := env.nowTs,
              end_ts := endOfPeriodTs env.now.month env.now.year,
              invite_link := env.inviteResult,
              last_notification_ts := none, active := true,
              removed := false, payment_type := pt }),
        hlast, fun s => ⟨rfl, rfl⟩, rfl⟩)
  · rename_i hlast
    exact Or.inr (Or.inr
      ⟨{ id := db.nextSubId, user_id := u, plan_id := p,
         start_ts := env.nowTs,
         end_ts := endOfPeriodTs env.now.month env.now.year,
         invite_link := env.inviteResult, active := true,
         removed := false, group_id := some g0, payment_type := pt,
         current_period_month := env.now.month,
         current_period_year := env.now.year, part_paid := "full",
         next_payment_date := some (endOfPeriodTs env.now.month env.now.year),
         last_notification_ts := none }, hlast, rfl, rfl, rfl, rfl⟩)

/-- `activate_subscription` preserves the at-most-one-active invariant. -/
theorem activate_preserves_amoa (db : DB) (env : ActEnv) (u : Int) (p : Nat)
    (pt : String) (g : Option Int)
    (hids : IdsDistinct db.subscriptions)
    (hone : AtMostOneActive db.subscriptions) :
    AtMostOneActive
      (activate_subscription db env u p pt g).2.1.subscriptions := by
  rcases activate_subs_shape db env u p pt g with heq | ⟨ex, upd, hlast, hup, heq⟩ |
    ⟨r, hlast, hru, hrp, hract, heq⟩
  · rw [heq]; exact hone
  · rw [heq]
    obtain ⟨hmem, hact, _, _⟩ := latestActiveSub_some hlast
    exact amoa_map_update hids hone hmem hact upd (fun s => (hup s).1)
      (fun s => (hup s).2)
  · rw [heq]
    exact amoa_append hone (latestActiveSub_none hlast) r hru hrp

/-- `remove_unpaid_users` preserves the at-most-one-active invariant. -/
theorem sweep_preserves_amoa (db : DB) (cm cy nowTs : Int)
    (hone : AtMostOneActive db.subscriptions) :
    AtMostOneActive (remove_unpaid_users db cm cy nowTs).1.subscriptions := by
  unfold remove_unpaid_users
  apply amoa_map_mono hone
  · intro s; split <;> rfl
  · intro s; split <;> rfl
  · intro s; split <;> simp

/-- `handle_payment_review` preserves the at-most-one-active invariant. -/
theorem review_preserves_amoa (db : DB) (env : ActEnv) (adminId : Int)
    (isAdmin isApprove : Bool) (pid : Nat)
    (hids : IdsDistinct db.subscriptions)
    (hone : AtMostOneActive db.subscriptions) :
    AtMostOneActive
      (handle_payment_review db env adminId isAdmin isApprove pid).1.subscriptions := by
  unfold handle_payment_review
  split
  · exact hone
  split
  · exact hone
  rename_i mp hfind
  split
  · dsimp only
    split
    · exact activate_preserves_amoa db env mp.user_id mp.plan_id
        mp.payment_type none hids hone
    · exact activate_preserves_amoa db env mp.user_id mp.plan_id
        mp.payment_type none hids hone
  · exact hone

/-- C2: the at-most-one-active-row-per-(user, plan) invariant is
preserved by every modelled operation, and `activate_subscription`
updates the existing active row in place (same row count) when one
exists, inserting a new row only when none exists. -/
theorem c2_at_most_one_active (db : DB) (env : ActEnv) (u : Int) (p : Nat)
    (pt : String) (g : Option Int) (cm cy nowTs : Int) (adminId : Int)
    (isAdmin isApprove : Bool) (pid : Nat)
    (hids : IdsDistinct db.subscriptions)
    (hone : AtMostOneActive db.subscriptions) :
    AtMostOneActive
      (activate_subscription db env u p pt g).2.1.subscriptions ∧
    AtMostOneActive (remove_unpaid_users db cm cy nowTs).1.subscriptions ∧
    AtMostOneActive
      (handle_payment_review db env adminId isAdmin isApprove pid).1.subscriptions ∧
    ((latestActiveSub db.subscriptions u p).isSome →
      (activate_subscription db env u p pt g).2.1.subscriptions.length =
        db.subscriptions.length) ∧
    (latestActiveSub db.subscriptions u p = none →
      (activate_subscription db env u p pt g).2.1.subscriptions =
        db.subscriptions ∨
      ∃ r : SubRow,
        (activate_subscription db env u p pt g).2.1.subscriptions =
          db.subscriptions ++ [r] ∧ r.active = true ∧ r.user_id = u ∧
          r.plan_id = p) := by
  refine ⟨activate_preserves_amoa db env u p pt g hids hone,
    sweep_preserves_amoa db cm cy nowTs hone,
    review_preserves_amoa db env adminId isAdmin isApprove pid hids hone,
    ?_, ?_⟩
  · intro hsome
    rcases activate_subs_shape db env u p pt g with heq |
      ⟨ex, upd, hlast, hup, heq⟩ | ⟨r, hlast, _, _, _, heq⟩
    · rw [heq]
    · rw [heq, List.length_map]
    · rw [hlast] at hsome; cases hsome
  · intro hnone
    rcases activate_subs_shape db env u p pt g with heq |
      ⟨ex, upd, hlast, hup, heq⟩ | ⟨r, hlast, hru, hrp, hract, heq⟩
    · exact Or.inl heq
    · rw [hnone] at hlast; cases hlast
    · exact Or.inr ⟨r, heq, hract, hru, hrp⟩

/-- A plan bound to group -100. -/
def planOne : Plan := ⟨1, 100000, "Курс", some (-100)⟩

/-- An active, fully-paid March-2025 subscription row for user 42. -/
def subOne : SubRow :=
  ⟨1, 42, 1, localTs 2025 3 1 0 0 0, endOfPeriodTs 3 2025, none, true, false,
   some (-100), "full", 3, 2025, "full", none, none⟩

/-- A database with one plan and one active subscription. -/
def dbOne : DB := ⟨[planOne], [subOne], [⟨42, some "@u"⟩], [], 2⟩

/-- Witness for C2 at a concrete database with one active row. -/
theorem c2_witness :
    AtMostOneActive
      (activate_subscription dbOne envMarch3 42 1 "full" none).2.1.subscriptions ∧
    (latestActiveSub dbOne.subscriptions 42 1).isSome = true ∧
    (activate_subscription dbOne envMarch3 42 1 "full" none).2.1.subscriptions.length =
      dbOne.subscriptions.length := by
  have h := c2_at_most_one_active dbOne envMarch3 42 1 "full" none 3 2025 0 1
    true true 1 (by decide) (by decide)
  exact ⟨h.1, by decide, h.2.2.2.1 (by decide)⟩

/-- Two active rows of the table with the same user and plan are the same
row, under the at-most-one-active invariant. -/
theorem active_pair_unique {subs : List SubRow}
    (hone : AtMostOneActive subs) {a ex : SubRow} (ha : a ∈ subs)
    (hex : ex ∈ subs) (haA : a.active = true) (hexA : ex.active = true)
    (hu : a.user_id = ex.user_id) (hp : a.plan_id = ex.plan_id) : a = ex :=
  pairwise_mem_eq hone ha hex (fun hn => hn ⟨haA, hexA, hu, hp⟩)
    (fun hn => hn ⟨hexA, haA, hu.symm, hp.symm⟩)

/-- Full case analysis of `activate_subscription` once the plan is found
and the target group resolved: idempotent re-invite, renewal overwrite,
or fresh insert — each with the exact result, state and effects. -/
theorem activate_cases (db : DB) (env : ActEnv) (u : Int) (p : Nat)
    (pt : String) (g : Option Int) (plan : Plan) (g0 : Int)
    (hplan : findPlan db p = some plan)
    (hg : resolveTargetGroup plan.group_id g = some g0) :
    (∃ ex, latestActiveSub db.subscriptions u p = some ex ∧
      (paidFullCurrent env.now.month env.now.year ex ∧ env.nowTs < ex.end_ts) ∧
      activate_subscription db env u p pt g =
        (⟨true, env.inviteResult⟩,
         { db with
             subscriptions := db.subscriptions.map (fun s =>
               if s.id = ex.id then refreshLink env.inviteResult s else s) },
         ⟨some (g0, u), some g0⟩)) ∨
    (∃ ex, latestActiveSub db.subscriptions u p = some ex ∧
      ¬(paidFullCurrent env.now.month env.now.year ex ∧
        env.nowTs < ex.end_ts) ∧
      activate_subscription db env u p pt g =
        (⟨true, env.inviteResult⟩,
         { db with
             subscriptions := db.subscriptions.map (fun s =>
               if s.id = ex.id then
                 renewRow env.now.month env.now.year env.nowTs
                   (endOfPeriodTs env.now.month env.now.year)
                   env.inviteResult pt s
               else s) },
         ⟨some (g0, u), some g0⟩)) ∨
    (latestActiveSub db.subscriptions u p = none ∧
      activate_subscription db env u p pt g =
        (⟨true, env.inviteResult⟩,
         { db with
             subscriptions := db.subscriptions ++
               [insertedRow db.nextSubId u p env.nowTs
                  (endOfPeriodTs env.now.month env.now.year)
                  env.inviteResult g0 pt env.now.month env.now.year],
             nextSubId := db.nextSubId + 1 },
         ⟨some (g0, u), some g0⟩)) := by
  cases hlast : latestActiveSub db.subscriptions u p with
  | some ex =>
    by_cases hcond : ex.current_period_month = env.now.month ∧
        ex.current_period_year = env.now.year ∧
        ex.part_paid = "full" ∧ env.nowTs < ex.end_ts
    · refine Or.inl ⟨ex, rfl, ?_, ?_⟩
      · exact ⟨⟨hcond.1, hcond.2.1, hcond.2.2.1⟩, hcond.2.2.2⟩
      · unfold activate_subscription
        split
        · rename_i h; rw [hplan] at h; cases h
        rename_i plan2 hplan2
        rw [hplan] at hplan2
        cases hplan2
        split
        · rename_i h; rw [hg] at h; cases h
        rename_i g1 hg1
        rw [hg] at hg1
        cases hg1
        split
        · rename_i ex2 hlast2
          rw [hlast] at hlast2
          cases hlast2
          dsimp only
          rw [if_pos hcond]
        · rename_i hlast2
          rw [hlast] at hlast2
          cases hlast2
    · refine Or.inr (Or.inl ⟨ex, rfl, ?_, ?_⟩)
      · intro ⟨hpc, hlt⟩
        exact hcond ⟨hpc.1, hpc.2.1, hpc.2.2, hlt⟩
      · unfold activate_subscription
        split
        · rename_i h; rw [hplan] at h; cases h
        rename_i plan2 hplan2
        rw [hplan] at hplan2
        cases hplan2
        split
        · rename_i h; rw [hg] at h; cases h
        rename_i g1 hg1
        rw [hg] at hg1
        cases hg1
        split
        · rename_i ex2 hlast2
          rw [hlast] at hlast2
          cases hlast2
          dsimp only
          rw [if_neg hcond]
        · rename_i hlast2
          rw [hlast] at hlast2
          cases hlast2
  | none =>
    refine Or.inr (Or.inr ⟨rfl, ?_⟩)
    unfold activate_subscription
    split
    · rename_i h; rw [hplan] at h; cases h
    rename_i plan2 hplan2
    rw [hplan] at hplan2
    cases hplan2
    split
    · rename_i h; rw [hg] at h; cases h
    rename_i g1 hg1
    rw [hg] at hg1
    cases hg1
    split
    · rename_i ex2 hlast2
      rw [hlast] at hlast2
      cases hlast2
    · rfl

/-- A successful activation presupposes a found plan and a resolved
group, and returns the invite-call outcome as its result. -/
theorem activate_ok_inv (db : DB) (env : ActEnv) (u : Int) (p : Nat)
    (pt : String) (g : Option Int)
    (hok : (activate_subscription db env u p pt g).1.ok = true) :
    ∃ plan g0, findPlan db p = some plan ∧
      resolveTargetGroup plan.group_id g = some g0 ∧
      (activate_subscription db env u p pt g).1.result = env.inviteResult := by
  unfold activate_subscription at hok ⊢
  split at hok
  · cases hok
  rename_i plan hplan
  split at hok
  · cases hok
  rename_i g0 hg
  refine ⟨plan, g0, hplan, hg, ?_⟩
  dsimp only at hok ⊢
  split at hok
  · rename_i ex hlast
    split <;> rfl
  · rfl

/-- A failed activation leaves the database untouched and attempts no
platform call. -/
theorem activate_not_ok (db : DB) (env : ActEnv) (u : Int) (p : Nat)
    (pt : String) (g : Option Int)
    (hnok : (activate_subscription db env u p pt g).1.ok = false) :
    (activate_subscription db env u p pt g).2.1 = db ∧
    (activate_subscription db env u p pt g).2.2 = ⟨none, none⟩ := by
  unfold activate_subscription at hnok ⊢
  split at hnok
  · exact ⟨rfl, rfl⟩
  rename_i plan hplan
  split at hnok
  · exact ⟨rfl, rfl⟩
  rename_i g0 hg
  exfalso
  dsimp only at hnok
  split at hnok
  · rename_i ex hlast
    split at hnok <;> cases hnok
  · cases hnok

/-- C1: whenever `activate_subscription` returns success, the affected
(user, plan) subscription row carries
`end_ts = endOfPeriodTs (current month) (current year)` — the 5th of the
calendar month after the current local month at 23:59:59 local time,
whatever the current day is (December wraps to January of the next
year via `nextPeriod`). Stated over any database satisfying the
reachable-state invariants: distinct primary keys, at most one active row
per pair, and every active fully-paid row already stamped by an earlier
activation. -/
theorem c1_end_ts_fifth_of_next_month (db : DB) (env : ActEnv) (u : Int)
    (p : Nat) (pt : String) (g : Option Int)
    (hids : IdsDistinct db.subscriptions)
    (hone : AtMostOneActive db.subscriptions)
    (hinv : PaidEndInv db.subscriptions)
    (hok : (activate_subscription db env u p pt g).1.ok = true) :
    ∀ s ∈ (activate_subscription db env u p pt g).2.1.subscriptions,
      s.user_id = u → s.plan_id = p → s.active = true →
      s.end_ts = endOfPeriodTs env.now.month env.now.year := by
  obtain ⟨plan, g0, hplan, hg, -⟩ := activate_ok_inv db env u p pt g hok
  rcases activate_cases db env u p pt g plan g0 hplan hg with
    ⟨ex, hlast, ⟨hpc, hlt⟩, heq⟩ | ⟨ex, hlast, hncond, heq⟩ | ⟨hlast, heq⟩
  · rw [heq]
    intro s hs hsu hsp hsact
    obtain ⟨hexmem, hexact, hexu, hexp⟩ := latestActiveSub_some hlast
    rcases List.mem_map.mp hs with ⟨a, ha, hfa⟩
    by_cases hid : a.id = ex.id
    · rw [if_pos hid] at hfa
      have hae : a = ex := idsDistinct_inj hids ha hexmem hid
      have hend : s.end_ts = a.end_ts := by rw [← hfa]; rfl
      have hmon : a.current_period_month = env.now.month := by
        rw [hae]; exact hpc.1
      have hyr : a.current_period_year = env.now.year := by
        rw [hae]; exact hpc.2.1
      have hfull : a.part_paid = "full" := by rw [hae]; exact hpc.2.2
      have haact : a.active = true := by rw [hae]; exact hexact
      rw [hend, hinv a ha haact hfull, hmon, hyr]
    · rw [if_neg hid] at hfa
      subst hfa
      have hae : a = ex := active_pair_unique hone ha hexmem hsact hexact
        (by rw [hsu, hexu]) (by rw [hsp, hexp])
      exact absurd (by rw [hae]) hid
  · rw [heq]
    intro s hs hsu hsp hsact
    obtain ⟨hexmem, hexact, hexu, hexp⟩ := latestActiveSub_some hlast
    rcases List.mem_map.mp hs with ⟨a, ha, hfa⟩
    by_cases hid : a.id = ex.id
    · rw [if_pos hid] at hfa
      rw [← hfa]
      rfl
    · rw [if_neg hid] at hfa
      subst hfa
      have hae : a = ex := active_pair_unique hone ha hexmem hsact hexact
        (by rw [hsu, hexu]) (by rw [hsp, hexp])
      exact absurd (by rw [hae]) hid
  · rw [heq]
    intro s hs hsu hsp hsact
    rcases List.mem_append.mp hs with hin | hr
    · exact absurd ⟨hsact, hsu, hsp⟩ (latestActiveSub_none hlast s hin)
    · have hsr : s = insertedRow db.nextSubId u p env.nowTs
          (endOfPeriodTs env.now.month env.now.year) env.inviteResult g0 pt
          env.now.month env.now.year := by simpa using hr
      rw [hsr]
      rfl

/-- A database with one plan and no subscriptions. -/
def dbPlanOnly : DB := ⟨[planOne], [], [], [], 1⟩

/-- 2025-03-31 12:00:00 local. -/
def envMarch31 : ActEnv :=
  ⟨⟨2025, 3, 31, 12, 0, 0⟩, localTs 2025 3 31 12 0 0, some "https://t.me/+a2"⟩

/-- 2025-12-15 12:00:00 local. -/
def envDec15 : ActEnv :=
  ⟨⟨2025, 12, 15, 12, 0, 0⟩, localTs 2025 12 15 12 0 0, some "https://t.me/+a3"⟩

/-- Witness for C1: activating on March 3 or March 31 stamps
April 5 23:59:59, activating on December 15 stamps January 5 of the next
year. -/
theorem c1_witness :
    (∀ s ∈ (activate_subscription dbPlanOnly envMarch3 42 1 "full"
        none).2.1.subscriptions,
      s.user_id = 42 → s.plan_id = 1 → s.active = true →
      s.end_ts = endOfPeriodTs 3 2025) ∧
    (∀ s ∈ (activate_subscription dbPlanOnly envMarch31 42 1 "full"
        none).2.1.subscriptions,
      s.user_id = 42 → s.plan_id = 1 → s.active = true →
      s.end_ts = endOfPeriodTs 3 2025) ∧
    (∀ s ∈ (activate_subscription dbPlanOnly envDec15 42 1 "full"
        none).2.1.subscriptions,
      s.user_id = 42 → s.plan_id = 1 → s.active = true →
      s.end_ts = endOfPeriodTs 12 2025) ∧
    endOfPeriodTs 3 2025 = localTs 2025 4 5 23 59 59 ∧
    endOfPeriodTs 12 2025 = localTs 2026 1 5 23 59 59 :=
  ⟨c1_end_ts_fifth_of_next_month dbPlanOnly envMarch3 42 1 "full" none
     (by decide) (by decide) (by decide) (by rfl),
   c1_end_ts_fifth_of_next_month dbPlanOnly envMarch31 42 1 "full" none
     (by decide) (by decide) (by decide) (by rfl),
   c1_end_ts_fifth_of_next_month dbPlanOnly envDec15 42 1 "full" none
     (by decide) (by decide) (by decide) (by rfl),
   by decide, by decide⟩

/-- Id distinctness survives any id-preserving row map. -/
theorem idsDistinct_map {subs : List SubRow} (hids : IdsDistinct subs)
    (f : SubRow → SubRow) (hid : ∀ s, (f s).id = s.id) :
    IdsDistinct (subs.map f) := by
  unfold IdsDistinct at *
  rw [List.pairwise_map]
  refine hids.imp ?_
  intro a b hne h
  rw [hid a, hid b] at h
  exact hne h

/-- `maxById` commutes with an id-preserving row map. -/
theorem maxById_map {f : SubRow → SubRow} (hid : ∀ s, (f s).id = s.id)
    (l : List SubRow) : maxById (l.map f) = (maxById l).map f := by
  unfold maxById
  suffices H : ∀ (l : List SubRow) (acc : Option SubRow),
      (l.map f).foldl
        (fun acc s =>
          match acc with
          | none => some s
          | some t => if t.id < s.id then some s else some t)
        (acc.map f) =
      (l.foldl
        (fun acc s =>
          match acc with
          | none => some s
          | some t => if t.id < s.id then some s else some t)
        acc).map f by
    exact H l none
  intro l
  induction l with
  | nil => intro acc; rfl
  | cons a as ih =>
    intro acc
    simp only [List.map_cons, List.foldl_cons]
    have hstep :
        (match acc.map f with
         | none => some (f a)
         | some t => if t.id < (f a).id then some (f a) else some t) =
        (match acc with
         | none => some a
         | some t => if t.id < a.id then some a else some t).map f := by
      cases acc with
      | none => rfl
      | some t =>
        show (if (f t).id < (f a).id then some (f a) else some (f t)) =
          Option.map f (if t.id < a.id then some a else some t)
        rw [hid a, hid t]
        by_cases hlt : t.id < a.id
        · rw [if_pos hlt, if_pos hlt]; rfl
        · rw [if_neg hlt, if_neg hlt]; rfl
    rw [hstep, ih]

/-- The existing-active-row query commutes with a row map that preserves
id, user, plan and the active flag. -/
theorem latestActiveSub_map {subs : List SubRow} {u : Int} {p : Nat}
    {f : SubRow → SubRow} (hid : ∀ s, (f s).id = s.id)
    (hu : ∀ s, (f s).user_id = s.user_id)
    (hp : ∀ s, (f s).plan_id = s.plan_id)
    (ha : ∀ s, (f s).active = s.active) :
    latestActiveSub (subs.map f) u p = (latestActiveSub subs u p).map f := by
  unfold latestActiveSub
  rw [List.filter_map]
  rw [List.filter_congr (fun x _ => by
    show isActiveFor u p (f x) = isActiveFor u p x
    unfold isActiveFor
    rw [hu x, hp x, ha x])]
  exact maxById_map hid (subs.filter (isActiveFor u p))

/-- When the selected active row is already fully paid for the current
period and unexpired, `activate_subscription` takes exactly the
re-invite branch. -/
theorem activate_idempotent_eq (db : DB) (env : ActEnv) (u : Int) (p : Nat)
    (pt : String) (g : Option Int) (ex : SubRow) (plan : Plan) (g0 : Int)
    (hplan : findPlan db p = some plan)
    (hg : resolveTargetGroup plan.group_id g = some g0)
    (hlast : latestActiveSub db.subscriptions u p = some ex)
    (hm : ex.current_period_month = env.now.month)
    (hy : ex.current_period_year = env.now.year)
    (hfull : ex.part_paid = "full")
    (hfut : env.nowTs < ex.end_ts) :
    activate_subscription db env u p pt g =
      (⟨true, env.inviteResult⟩,
       { db with
           subscriptions := db.subscriptions.map (fun s =>
             if s.id = ex.id then refreshLink env.inviteResult s else s) },
       ⟨some (g0, u), some g0⟩) := by
  rcases activate_cases db env u p pt g plan g0 hplan hg with
    ⟨ex2, hlast2, hcond, heq⟩ | ⟨ex2, hlast2, hncond, heq⟩ | ⟨hlast2, heq⟩
  · rw [hlast] at hlast2
    cases hlast2
    exact heq
  · rw [hlast] at hlast2
    cases hlast2
    exact absurd ⟨⟨hm, hy, hfull⟩, hfut⟩ hncond
  · rw [hlast] at hlast2
    cases hlast2

/-- C3: for an existing active row already fully paid for the current
period with a future `end_ts`, `activate_subscription` succeeds, changes
only that row's `invite_link` (to the fresh credential) and clears its
`last_notification_ts`; `end_ts`, `start_ts` and the period columns stay
put, and a second call in the same period leaves `end_ts` unchanged
again. -/
theorem c3_idempotent_reinvite (db : DB) (env : ActEnv) (u : Int) (p : Nat)
    (pt : String) (g : Option Int) (ex : SubRow)
    (hids : IdsDistinct db.subscriptions)
    (hlast : latestActiveSub db.subscriptions u p = some ex)
    (hm : ex.current_period_month = env.now.month)
    (hy : ex.current_period_year = env.now.year)
    (hfull : ex.part_paid = "full")
    (hfut : env.nowTs < ex.end_ts)
    (hok : (activate_subscription db env u p pt g).1.ok = true) :
    (activate_subscription db env u p pt g).2.1 =
      { db with
          subscriptions := db.subscriptions.map (fun s =>
            if s.id = ex.id then refreshLink env.inviteResult s else s) } ∧
    (∀ s ∈ (activate_subscription db env u p pt g).2.1.subscriptions,
      s.id = ex.id →
      s.end_ts = ex.end_ts ∧ s.start_ts = ex.start_ts ∧
      s.current_period_month = ex.current_period_month ∧
      s.current_period_year = ex.current_period_year ∧
      s.part_paid = ex.part_paid ∧ s.active = ex.active ∧
      s.removed = ex.removed ∧
      s.invite_link = env.inviteResult ∧ s.last_notification_ts = none) ∧
    (∀ s ∈ (activate_subscription
        (activate_subscription db env u p pt g).2.1
        env u p pt g).2.1.subscriptions,
      s.id = ex.id → s.end_ts = ex.end_ts) := by
  obtain ⟨plan, g0, hplan, hg, -⟩ := activate_ok_inv db env u p pt g hok
  have heq := activate_idempotent_eq db env u p pt g ex plan g0 hplan hg
    hlast hm hy hfull hfut
  obtain ⟨hexmem, hexact, hexu, hexp⟩ := latestActiveSub_some hlast
  have hfid : ∀ s : SubRow,
      ((if s.id = ex.id then refreshLink env.inviteResult s else s).id = s.id) ∧
      ((if s.id = ex.id then refreshLink env.inviteResult s else s).user_id =
        s.user_id) ∧
      ((if s.id = ex.id then refreshLink env.inviteResult s else s).plan_id =
        s.plan_id) ∧
      ((if s.id = ex.id then refreshLink env.inviteResult s else s).active =
        s.active) := by
    intro s
    by_cases h : s.id = ex.id
    · rw [if_pos h]; exact ⟨rfl, rfl, rfl, rfl⟩
    · rw [if_neg h]; exact ⟨rfl, rfl, rfl, rfl⟩
  refine ⟨by rw [heq], ?_, ?_⟩
  · intro s hs hsid
    rw [heq] at hs
    rcases List.mem_map.mp hs with ⟨a, ha, hfa⟩
    by_cases hid : a.id = ex.id
    · have hae : a = ex := idsDistinct_inj hids ha hexmem hid
      rw [if_pos hid] at hfa
      subst hae
      rw [← hfa]
      exact ⟨rfl, rfl, rfl, rfl, rfl, rfl, rfl, rfl, rfl⟩
    · rw [if_neg hid] at hfa
      subst hfa
      exact absurd hsid hid
  · intro s hs hsid
    have hdb1subs : (activate_subscription db env u p pt g).2.1.subscriptions =
        db.subscriptions.map (fun s =>
          if s.id = ex.id then refreshLink env.inviteResult s else s) := by
      rw [heq]
    have hdb1plans : (activate_subscription db env u p pt g).2.1.plans =
        db.plans := by rw [heq]
    have hplan1 : findPlan (activate_subscription db env u p pt g).2.1 p =
        some plan := by
      show (activate_subscription db env u p pt g).2.1.plans.find?
        (fun q => q.id == p) = some plan
      rw [hdb1plans]
      exact hplan
    have hlast1 : latestActiveSub
        (activate_subscription db env u p pt g).2.1.subscriptions u p =
        some (refreshLink env.inviteResult ex) := by
      rw [hdb1subs,
        latestActiveSub_map (fun s => (hfid s).1) (fun s => (hfid s).2.1)
          (fun s => (hfid s).2.2.1) (fun s => (hfid s).2.2.2), hlast]
      show some (if ex.id = ex.id then refreshLink env.inviteResult ex else ex) =
        some (refreshLink env.inviteResult ex)
      rw [if_pos rfl]
    have heq2 := activate_idempotent_eq
      (activate_subscription db env u p pt g).2.1 env u p pt g
      (refreshLink env.inviteResult ex) plan g0 hplan1 hg hlast1 hm hy hfull hfut
    rw [heq2] at hs
    rcases List.mem_map.mp hs with ⟨a, ha, hfa⟩
    rw [hdb1subs] at ha
    rcases List.mem_map.mp ha with ⟨b, hb, hfb⟩
    have hbid : a.id = b.id := by rw [← hfb]; exact (hfid b).1
    by_cases hid : b.id = ex.id
    · have hbe : b = ex := idsDistinct_inj hids hb hexmem hid
      subst hbe
      rw [if_pos rfl] at hfb
      subst hfb
      rw [if_pos rfl] at hfa
      rw [← hfa]
      rfl
    · rw [if_neg hid] at hfb
      subst hfb
      have : ¬(b.id = (refreshLink env.inviteResult ex).id) := hid
      rw [if_neg this] at hfa
      subst hfa
      exact absurd hsid hid

/-- Rows fetched by the sweep satisfy exactly its WHERE clause. -/
theorem sweepSelected_mem {db : DB} {cm cy nowTs : Int} {t : SubRow}
    (ht : t ∈ sweepSelected db cm cy nowTs) :
    t ∈ db.subscriptions ∧ t.active = true ∧ t.end_ts < nowTs ∧
    ¬paidFullCurrent cm cy t := by
  rcases List.mem_filter.mp ht with ⟨hin, hsel⟩
  unfold sweepSelects at hsel
  simp only [Bool.and_eq_true, Bool.not_eq_true', decide_eq_true_eq,
    decide_eq_false_iff_not] at hsel
  exact ⟨hin, hsel.1.1.1.1, hsel.1.1.1.2, hsel.1.1.2⟩

/-- C4: the removal sweep never touches a row that is fully paid for the
current period with a future `end_ts` — the row survives unchanged and no
ban is attempted for it — and every row it does select is active with an
expired `end_ts` and not fully-paid-current. -/
theorem c4_sweep_spares_paid_current (db : DB) (cm cy nowTs : Int)
    (hids : IdsDistinct db.subscriptions) :
    (∀ s ∈ db.subscriptions,
      paidFullCurrent cm cy s → nowTs < s.end_ts →
      s ∈ (remove_unpaid_users db cm cy nowTs).1.subscriptions ∧
      ∀ b ∈ (remove_unpaid_users db cm cy nowTs).2, b.1 ≠ s.id) ∧
    (∀ t ∈ sweepSelected db cm cy nowTs,
      t.active = true ∧ t.end_ts < nowTs ∧ ¬paidFullCurrent cm cy t) := by
  constructor
  · intro s hs hpaid hfut
    have hsid : ∀ t ∈ sweepSelected db cm cy nowTs, t.id ≠ s.id := by
      intro t ht hts
      obtain ⟨htin, _, _, hnp⟩ := sweepSelected_mem ht
      have : t = s := idsDistinct_inj hids htin hs hts
      subst this
      exact hnp hpaid
    constructor
    · unfold remove_unpaid_users
      apply List.mem_map.mpr
      refine ⟨s, hs, ?_⟩
      rw [if_neg]
      intro hmem
      rcases List.mem_map.mp hmem with ⟨t, ht, hts⟩
      exact hsid t ht hts
    · intro b hb
      unfold remove_unpaid_users at hb
      rcases List.mem_filterMap.mp hb with ⟨t, ht, htb⟩
      cases hgrp : t.group_id with
      | none => rw [hgrp] at htb; cases htb
      | some g0 =>
        rw [hgrp] at htb
        cases htb
        exact hsid t ht
  · intro t ht
    exact (sweepSelected_mem ht).2

/-- An active subscription row whose period (January 2025) lapsed and
whose `end_ts` (February 5) has passed. -/
def subExpired : SubRow :=
  ⟨2, 43, 1, localTs 2025 1 10 0 0 0, endOfPeriodTs 1 2025, none, true,
   false, some (-100), "full", 1, 2025, "full", none, none⟩

/-- A database holding one paid-current row and one expired unpaid row. -/
def dbSweep : DB :=
  ⟨[planOne], [subOne, subExpired], [⟨42, some "@u"⟩, ⟨43, some "@v"⟩], [], 3⟩

/-- Witness for C4 on 2025-03-10: the paid-current row survives and is
never banned, while the lapsed row is the only ban attempt. -/
theorem c4_witness :
    (subOne ∈
      (remove_unpaid_users dbSweep 3 2025
        (localTs 2025 3 10 0 0 0)).1.subscriptions ∧
     ∀ b ∈ (remove_unpaid_users dbSweep 3 2025
        (localTs 2025 3 10 0 0 0)).2, b.1 ≠ subOne.id) ∧
    (remove_unpaid_users dbSweep 3 2025 (localTs 2025 3 10 0 0 0)).2 =
      [(2, -100, 43)] :=
  ⟨(c4_sweep_spares_paid_current dbSweep 3 2025 (localTs 2025 3 10 0 0 0)
      (by decide)).1 subOne (by decide) (by decide) (by decide),
   by decide⟩

/-- Witness for C3: re-activating the already-paid March subscription on
March 3 only refreshes its link. -/
theorem c3_witness :
    (activate_subscription dbOne envMarch3 42 1 "full" none).2.1 =
      { dbOne with
          subscriptions := dbOne.subscriptions.map (fun s =>
            if s.id = subOne.id then refreshLink envMarch3.inviteResult s
            else s) } :=
  (c3_idempotent_reinvite dbOne envMarch3 42 1 "full" none subOne
    (by decide) (by decide) (by decide) (by decide) (by decide) (by decide)
    (by decide)).1

/-- 2025-03-03 12:00:00 local, with the platform invite-link call
failing. -/
def envInviteFail : ActEnv :=
  ⟨⟨2025, 3, 3, 12, 0, 0⟩, localTs 2025 3 3 12 0 0, none⟩

/-- Counterexample to C7 as stated: when the invite-link call fails
during a successful activation, `activate_subscription` still reports
success (with a None credential) and commits the row, and `got_payment`
sends the success message — no activation error reaches the user. -/
theorem c7_counterexample :
    (activate_subscription dbPlanOnly envInviteFail 42 1 "full" none).1.ok =
      true ∧
    (got_payment dbPlanOnly envInviteFail 42 1 "full" none).2 =
      PayMsg.successMsg none ∧
    (got_payment dbPlanOnly envInviteFail 42 1 "full"
      none).1.subscriptions.length = 1 := by
  decide

/-- C7 (amended): if the invite-link platform call fails
(`create_chat_invite_link_one_time` returns None) but the plan and group
resolve, `activate_subscription` still returns success with a None
credential and `got_payment` sends the success message containing no
valid link; an activation error is surfaced only when
`activate_subscription` itself fails beforehand. -/
theorem c7_amended_invite_failure (db : DB) (env : ActEnv) (u : Int)
    (p : Nat) (pt : String) (g : Option Int)
    (hfail : env.inviteResult = none)
    (hok : (activate_subscription db env u p pt g).1.ok = true) :
    (activate_subscription db env u p pt g).1.result = none ∧
    (got_payment db env u p pt g).2 = PayMsg.successMsg none := by
  obtain ⟨plan, g0, hplan, hg, hres⟩ := activate_ok_inv db env u p pt g hok
  rw [hfail] at hres
  refine ⟨hres, ?_⟩
  unfold got_payment
  dsimp only
  rw [hok, hres]
  rfl

/-- Witness for the amended C7. -/
theorem c7_amended_witness :
    (activate_subscription dbPlanOnly envInviteFail 42 1 "full"
      none).1.result = none ∧
    (got_payment dbPlanOnly envInviteFail 42 1 "full" none).2 =
      PayMsg.successMsg none :=
  c7_amended_invite_failure dbPlanOnly envInviteFail 42 1 "full" none
    (by rfl) (by decide)

/-- A pending manual-payment ticket for a plan id with no plan row. -/
def ticketNine : ManualPayment := ⟨7, 42, 9, 100000, "full", "pending", none, none⟩

/-- A database holding only that orphaned pending ticket. -/
def dbTicketNoPlan : DB := ⟨[], [], [], [ticketNine], 1⟩

/-- Counterexample to C8 as stated: approving a pending ticket whose plan
row is missing invokes `activate_subscription`, which fails, and the
ticket is left `pending` — its status is not set to `approved`. -/
theorem c8_counterexample :
    (handle_payment_review dbTicketNoPlan envMarch3 1 true true 7).2 =
      ReviewOutcome.approveFailed "Тариф не найден" ∧
    (handle_payment_review dbTicketNoPlan envMarch3 1 true true
      7).1.manual_payments = [ticketNine] := by
  decide

/-- C8 (amended): review acts only on pending tickets — a ticket that is
not pending is reported as not found/already processed and nothing
changes; rejecting a pending ticket marks it `rejected` and notifies the
user; approving a pending ticket invokes `activate_subscription` and,
when activation succeeds, marks it `approved` and notifies the user with
the credential; when activation fails, the database is unchanged and the
ticket stays pending. -/
theorem c8_amended_review (db : DB) (env : ActEnv) (adminId : Int)
    (pid : Nat) :
    (∀ isApprove, findPendingPayment db pid = none →
      handle_payment_review db env adminId true isApprove pid =
        (db, ReviewOutcome.notFound)) ∧
    (∀ mp, findPendingPayment db pid = some mp →
      handle_payment_review db env adminId true false pid =
        ({ db with
             manual_payments := db.manual_payments.map (fun t =>
               if t.id = pid then
                 { t with status := "rejected", admin_id := some adminId,
                          reviewed_ts := some env.nowTs }
               else t) },
         ReviewOutcome.rejectedDone)) ∧
    (∀ mp, findPendingPayment db pid = some mp →
      (activate_subscription db env mp.user_id mp.plan_id mp.payment_type
        none).1.ok = true →
      handle_payment_review db env adminId true true pid =
        ({ (activate_subscription db env mp.user_id mp.plan_id
              mp.payment_type none).2.1 with
             manual_payments := (activate_subscription db env mp.user_id
               mp.plan_id mp.payment_type none).2.1.manual_payments.map
               (fun t =>
                 if t.id = pid then
                   { t with status := "approved", admin_id := some adminId,
                            reviewed_ts := some env.nowTs }
                 else t) },
         ReviewOutcome.approvedOk (activate_subscription db env mp.user_id
           mp.plan_id mp.payment_type none).1.result)) ∧
    (∀ mp, findPendingPayment db pid = some mp →
      (activate_subscription db env mp.user_id mp.plan_id mp.payment_type
        none).1.ok = false →
      handle_payment_review db env adminId true true pid =
        (db, ReviewOutcome.approveFailed
          ((activate_subscription db env mp.user_id mp.plan_id
            mp.payment_type none).1.result.getD ""))) := by
  refine ⟨?_, ?_, ?_, ?_⟩
  · intro isApprove h
    unfold handle_payment_review
    rw [h]
    rfl
  · intro mp h
    unfold handle_payment_review
    rw [h]
    rfl
  · intro mp h hok
    unfold handle_payment_review
    rw [h]
    dsimp only
    rw [hok]
    rfl
  · intro mp h hok
    obtain ⟨hdb, -⟩ := activate_not_ok db env mp.user_id mp.plan_id
      mp.payment_type none hok
    unfold handle_payment_review
    rw [h]
    dsimp only
    rw [hok, hdb]
    rfl

/-- A pending manual-payment ticket for the configured plan. -/
def ticketOne : ManualPayment := ⟨8, 42, 1, 100000, "full", "pending", none, none⟩

/-- A database with the plan, the submitting user and that pending
ticket. -/
def dbTicket : DB := ⟨[planOne], [], [⟨42, some "@u"⟩], [ticketOne], 1⟩

/-- Witness for the amended C8: rejecting marks the ticket rejected;
approving activates and marks it approved, handing back the credential. -/
theorem c8_amended_witness :
    (handle_payment_review dbTicket envMarch3 1 true false
        8).1.manual_payments.map (fun t => t.status) = ["rejected"] ∧
    (handle_payment_review dbTicket envMarch3 1 true true
        8).1.manual_payments.map (fun t => t.status) = ["approved"] ∧
    (handle_payment_review dbTicket envMarch3 1 true true 8).2 =
      ReviewOutcome.approvedOk (some "https://t.me/+abc") := by
  obtain ⟨ha, hb, hc, hd⟩ := c8_amended_review dbTicket envMarch3 1 8
  refine ⟨?_, ?_, ?_⟩
  · rw [hb ticketOne (by rfl)]
    decide
  · rw [hc ticketOne (by rfl) (by decide)]
    decide
  · rw [hc ticketOne (by rfl) (by decide)]
    decide

/-- Every character of `natToChars n` is a decimal digit character. -/
theorem natToChars_chars (n : Nat) :
    ∀ c ∈ natToChars n, ∃ k, k < 10 ∧ c = Char.ofNat (48 + k) := by
  induction n using Nat.strong_induction_on with
  | _ n ih =>
    unfold natToChars
    split
    · rename_i h
      intro c hc
      exact ⟨n, h, by simpa using hc⟩
    · rename_i h
      intro c hc
      rcases List.mem_append.mp hc with h1 | h2
      · exact ih (n / 10) (Nat.div_lt_self (by omega) (by omega)) c h1
      · exact ⟨n % 10, Nat.mod_lt _ (by omega), by simpa using h2⟩

/-- Digit characters are digits. -/
theorem digitChar_isDigit {k : Nat} (hk : k < 10) :
    (Char.ofNat (48 + k)).isDigit = true := by
  interval_cases k <;> decide

/-- Digit characters are not whitespace. -/
theorem digitChar_not_ws {k : Nat} (hk : k < 10) :
    (Char.ofNat (48 + k)).isWhitespace = false := by
  interval_cases k <;> decide

/-- Digit characters are not the decimal dot. -/
theorem digitChar_ne_dot {k : Nat} (hk : k < 10) :
    Char.ofNat (48 + k) ≠ '.' := by
  interval_cases k <;> decide

/-- Digit characters are not a minus sign. -/
theorem digitChar_ne_minus {k : Nat} (hk : k < 10) :
    Char.ofNat (48 + k) ≠ '-' := by
  interval_cases k <;> decide

/-- Digit characters are not a plus sign. -/
theorem digitChar_ne_plus {k : Nat} (hk : k < 10) :
    Char.ofNat (48 + k) ≠ '+' := by
  interval_cases k <;> decide

/-- `digitVal` inverts the digit-character encoding. -/
theorem digitVal_digitChar {k : Nat} (hk : k < 10) :
    digitVal (Char.ofNat (48 + k)) = some k := by
  interval_cases k <;> decide

/-- `parseDigitsGo` processes an append left to right. -/
theorem parseDigitsGo_append (l1 l2 : List Char) (acc : Nat) :
    parseDigitsGo (l1 ++ l2) acc =
      match parseDigitsGo l1 acc with
      | some m => parseDigitsGo l2 m
      | none => none := by
  induction l1 generalizing acc with
  | nil => rfl
  | cons c cs ih =>
    cases hd : digitVal c with
    | some d =>
      simp only [List.cons_append, parseDigitsGo, hd]
      exact ih _
    | none =>
      simp only [List.cons_append, parseDigitsGo, hd]

/-- Accumulating parse of a rendered number. -/
theorem parseDigitsGo_natToChars (n : Nat) :
    ∀ acc, parseDigitsGo (natToChars n) acc =
      some (acc * 10 ^ (natToChars n).length + n) := by
  induction n using Nat.strong_induction_on with
  | _ n ih =>
    intro acc
    unfold natToChars
    split
    · rename_i h
      simp [parseDigitsGo, digitVal_digitChar h]
    · rename_i h
      rw [parseDigitsGo_append]
      rw [ih (n / 10) (Nat.div_lt_self (by omega) (by omega)) acc]
      have hm : n % 10 < 10 := Nat.mod_lt _ (by omega)
      simp only [parseDigitsGo, digitVal_digitChar hm, List.length_append,
        List.length_cons, List.length_nil]
      have hK := Nat.div_add_mod n 10
      have hpow : 10 ^ ((natToChars (n / 10)).length + (0 + 1)) =
          10 ^ (natToChars (n / 10)).length * 10 := by
        rw [pow_succ]
      congr 1
      rw [hpow, ← mul_assoc]
      set K := 10 ^ (natToChars (n / 10)).length with hKdef
      omega

/-- A rendered number is never the empty string. -/
theorem natToChars_ne_nil (n : Nat) : natToChars n ≠ [] := by
  unfold natToChars
  split <;> simp

/-- `parseDigits` inverts `natToChars`. -/
theorem parseDigits_natToChars (n : Nat) :
    parseDigits (natToChars n) = some n := by
  unfold parseDigits
  cases hl : natToChars n with
  | nil => exact absurd hl (natToChars_ne_nil n)
  | cons c cs =>
    show parseDigitsGo (c :: cs) 0 = some n
    rw [← hl, parseDigitsGo_natToChars n 0]
    simp

/-- `dropWhile` is the identity on a list none of whose elements satisfy
the predicate. -/
theorem dropWhile_no (p : Char → Bool) (l : List Char)
    (h : ∀ c ∈ l, p c = false) : l.dropWhile p = l := by
  cases l with
  | nil => rfl
  | cons c cs =>
    rw [List.dropWhile_cons, h c (List.mem_cons_self _ _)]
    simp

/-- `strip()` is the identity on whitespace-free strings. -/
theorem pyStrip_no_ws (l : List Char)
    (h : ∀ c ∈ l, c.isWhitespace = false) : pyStrip l = l := by
  unfold pyStrip
  rw [dropWhile_no _ _ h,
    dropWhile_no _ _ (fun c hc => h c (List.mem_reverse.mp hc)),
    List.reverse_reverse]

/-- Splitting a separator-free string yields that one piece. -/
theorem splitOnCharGo_no_sep (sep : Char) (l cur : List Char)
    (h : sep ∉ l) : splitOnCharGo sep l cur = [cur.reverse ++ l] := by
  induction l generalizing cur with
  | nil => simp [splitOnCharGo]
  | cons c cs ih =>
    have hc : ¬(c = sep) := fun he => h (he ▸ List.mem_cons_self _ _)
    simp only [splitOnCharGo]
    rw [if_neg hc, ih _ (fun hm => h (List.mem_cons_of_mem _ hm))]
    simp

/-- Splitting past the first separator occurrence. -/
theorem splitOnCharGo_sep_append (sep : Char) (l1 l2 cur : List Char)
    (h1 : sep ∉ l1) :
    splitOnCharGo sep (l1 ++ sep :: l2) cur =
      (cur.reverse ++ l1) :: splitOnCharGo sep l2 [] := by
  induction l1 generalizing cur with
  | nil => simp [splitOnCharGo]
  | cons c cs ih =>
    have hc : ¬(c = sep) := fun he => h1 (he ▸ List.mem_cons_self _ _)
    simp only [List.cons_append, splitOnCharGo]
    rw [if_neg hc]
    show splitOnCharGo sep (cs ++ sep :: l2) (c :: cur) =
      (cur.reverse ++ c :: cs) :: splitOnCharGo sep l2 []
    rw [ih _ (fun hm => h1 (List.mem_cons_of_mem _ hm))]
    simp

/-- Splitting a string with exactly one separator occurrence. -/
theorem splitOnChar_two (sep : Char) (l1 l2 : List Char)
    (h1 : sep ∉ l1) (h2 : sep ∉ l2) :
    splitOnChar sep (l1 ++ sep :: l2) = [l1, l2] := by
  unfold splitOnChar
  rw [splitOnCharGo_sep_append sep l1 l2 [] h1,
    splitOnCharGo_no_sep sep l2 [] h2]
  simp

/-- A rendering of `n < 10` is the single digit character. -/
theorem natToChars_single (n : Nat) (h : n < 10) :
    natToChars n = [Char.ofNat (48 + n)] := by
  unfold natToChars
  rw [dif_pos h]

/-- A rendering of `n ≥ 10` ends with its last digit. -/
theorem natToChars_ge10 (n : Nat) (h : ¬n < 10) :
    natToChars n = natToChars (n / 10) ++ [Char.ofNat (48 + n % 10)] := by
  conv_lhs => unfold natToChars
  rw [dif_neg h]

/-- The two-digit zero-padded rendering of `f < 100`, with its digit
values. -/
theorem pad2_chars (f : Nat) (hf : f < 100) :
    ∃ a b, a < 10 ∧ b < 10 ∧
      pad2 f = [Char.ofNat (48 + a), Char.ofNat (48 + b)] ∧
      a * 10 + b = f := by
  by_cases h : f < 10
  · refine ⟨0, f, by omega, h, ?_, by omega⟩
    unfold pad2
    rw [if_pos h, natToChars_single f h]
  · refine ⟨f / 10, f % 10, by omega, Nat.mod_lt _ (by omega), ?_, by omega⟩
    unfold pad2
    rw [if_neg h, natToChars_ge10 f h,
      natToChars_single (f / 10) (by omega)]
    rfl

/-- `pyInt` inverts `natToChars`. -/
theorem pyInt_natToChars (W : Nat) :
    pyInt (natToChars W) = some ((W : Nat) : Int) := by
  unfold pyInt
  have hnw : ∀ c ∈ natToChars W, c.isWhitespace = false := by
    intro c hc
    obtain ⟨k, hk, rfl⟩ := natToChars_chars W c hc
    exact digitChar_not_ws hk
  rw [pyStrip_no_ws _ hnw]
  cases hl : natToChars W with
  | nil => exact absurd hl (natToChars_ne_nil W)
  | cons c cs =>
    have hcmem : c ∈ natToChars W := by rw [hl]; exact List.mem_cons_self _ _
    obtain ⟨k, hk, hck⟩ := natToChars_chars W c hcmem
    show (if c = '-' then (parseDigits cs).map (fun n => -(n : Int))
      else if c = '+' then (parseDigits cs).map (fun n => (n : Int))
      else (parseDigits (c :: cs)).map (fun n => (n : Int))) = some (W : Int)
    rw [if_neg (hck ▸ digitChar_ne_minus hk),
      if_neg (hck ▸ digitChar_ne_plus hk), ← hl, parseDigits_natToChars]
    rfl

/-- `pyInt` recovers the value of the two-digit padded fraction. -/
theorem pyInt_pad2 (f : Nat) (hf : f < 100) :
    pyInt (pad2 f) = some ((f : Nat) : Int) := by
  obtain ⟨a, b, ha, hb, hpad, hab⟩ := pad2_chars f hf
  rw [hpad]
  unfold pyInt
  rw [pyStrip_no_ws]
  · show (if Char.ofNat (48 + a) = '-' then _
      else if Char.ofNat (48 + a) = '+' then _
      else (parseDigits [Char.ofNat (48 + a), Char.ofNat (48 + b)]).map
        (fun n => (n : Int))) = some (f : Int)
    rw [if_neg (digitChar_ne_minus ha), if_neg (digitChar_ne_plus ha)]
    have hparse : parseDigits [Char.ofNat (48 + a), Char.ofNat (48 + b)] =
        some (a * 10 + b) := by
      show parseDigitsGo [Char.ofNat (48 + a), Char.ofNat (48 + b)] 0 = _
      simp [parseDigitsGo, digitVal_digitChar ha, digitVal_digitChar hb]
    rw [hparse, hab]
    rfl
  · intro c hc
    rcases List.mem_cons.mp hc with rfl | hc2
    · exact digitChar_not_ws ha
    · rcases List.mem_cons.mp hc2 with rfl | hc3
      · exact digitChar_not_ws hb
      · cases hc3

/-- C9: for every canonical price string `"W.FF"` (canonical rendering of
whole units `W`, exactly two fraction digits `FF`), `cents_from_str`
succeeds with `W*100 + FF`, and `price_str_from_cents` renders that value
back to `"W.FF BYN"`. -/
theorem c9_price_roundtrip (W f : Nat) (hf : f < 100) :
    cents_from_str (natToChars W ++ '.' :: pad2 f) =
      some (((W : Nat) : Int) * 100 + ((f : Nat) : Int)) ∧
    price_str_from_cents
        (some (((W : Nat) : Int) * 100 + ((f : Nat) : Int))) =
      (natToChars W ++ '.' :: pad2 f) ++ ' ' :: CURRENCY := by
  obtain ⟨a, b, ha, hb, hpad, hab⟩ := pad2_chars f hf
  have hnws : ∀ c ∈ natToChars W ++ '.' :: pad2 f, c.isWhitespace = false := by
    intro c hc
    rcases List.mem_append.mp hc with h1 | h2
    · obtain ⟨k, hk, rfl⟩ := natToChars_chars W c h1
      exact digitChar_not_ws hk
    · rcases List.mem_cons.mp h2 with rfl | h3
      · decide
      · rw [hpad] at h3
        rcases List.mem_cons.mp h3 with rfl | h4
        · exact digitChar_not_ws ha
        · rcases List.mem_cons.mp h4 with rfl | h5
          · exact digitChar_not_ws hb
          · cases h5
  have hdotW : '.' ∉ natToChars W := by
    intro hc
    obtain ⟨k, hk, hck⟩ := natToChars_chars W '.' hc
    exact digitChar_ne_dot hk hck.symm
  have hdotP : '.' ∉ pad2 f := by
    rw [hpad]
    intro hc
    rcases List.mem_cons.mp hc with h1 | h2
    · exact digitChar_ne_dot ha h1.symm
    · rcases List.mem_cons.mp h2 with h3 | h4
      · exact digitChar_ne_dot hb h3.symm
      · cases h4
  constructor
  · unfold cents_from_str
    rw [pyStrip_no_ws _ hnws]
    dsimp only
    have hmem : '.' ∈ natToChars W ++ '.' :: pad2 f :=
      List.mem_append.mpr (Or.inr (List.mem_cons_self _ _))
    rw [if_pos hmem,
      splitOnChar_two '.' (natToChars W) (pad2 f) hdotW hdotP]
    have htake : ljust2 ((pad2 f).take 2) = pad2 f := by
      rw [hpad]
      rfl
    show (match pyInt (natToChars W), pyInt (ljust2 ((pad2 f).take 2)) with
      | some whole, some f => some (whole * 100 + f)
      | _, _ => none) = some ((W : Int) * 100 + (f : Int))
    rw [htake, pyInt_natToChars, pyInt_pad2 f hf]
  · unfold price_str_from_cents
    have hcast : ((W : Int) * 100 + (f : Int)) = ((W * 100 + f : Nat) : Int) := by
      push_cast
      ring
    have hdivN : (W * 100 + f) / 100 = W := by omega
    have hmodN : (W * 100 + f) % 100 = f := by omega
    have hfd : Int.fdiv ((W * 100 + f : Nat) : Int) 100 = ((W : Nat) : Int) := by
      rw [Int.fdiv_eq_ediv _ (by omega)]
      calc ((W * 100 + f : Nat) : Int) / (100 : Int)
          = ((W * 100 + f : Nat) : Int) / ((100 : Nat) : Int) := by norm_num
        _ = (((W * 100 + f) / 100 : Nat) : Int) := (Int.ofNat_ediv _ _).symm
        _ = ((W : Nat) : Int) := by rw [hdivN]
    have hmd : Int.emod ((W * 100 + f : Nat) : Int) 100 = ((f : Nat) : Int) := by
      show ((W * 100 + f : Nat) : Int) % (100 : Int) = ((f : Nat) : Int)
      calc ((W * 100 + f : Nat) : Int) % (100 : Int)
          = ((W * 100 + f : Nat) : Int) % ((100 : Nat) : Int) := by norm_num
        _ = (((W * 100 + f) % 100 : Nat) : Int) := (Int.ofNat_emod _ _).symm
        _ = ((f : Nat) : Int) := by rw [hmodN]
    dsimp only [Option.getD_some]
    rw [hcast, hfd, hmd, Int.toNat_ofNat]
    unfold intToChars
    rw [if_neg (by omega), Int.toNat_ofNat]
    simp

/-- Witness for C9 at `"14.99"`: parsing yields 1499 cents and formatting
renders `"14.99 BYN"`. -/
theorem c9_witness :
    (cents_from_str (natToChars 14 ++ '.' :: pad2 99) =
      some (((14 : Nat) : Int) * 100 + ((99 : Nat) : Int)) ∧
    price_str_from_cents
        (some (((14 : Nat) : Int) * 100 + ((99 : Nat) : Int))) =
      (natToChars 14 ++ '.' :: pad2 99) ++ ' ' :: CURRENCY) ∧
    natToChars 14 ++ '.' :: pad2 99 = "14.99".toList ∧
    ((14 : Nat) : Int) * 100 + ((99 : Nat) : Int) = 1499 :=
  ⟨c9_price_roundtrip 14 99 (by decide),
   by simp [natToChars, pad2, String.toList], by decide⟩

/-- `activate_subscription` preserves the stamped-end-date invariant:
every row it leaves active and fully paid carries the end timestamp of
its own period. -/
theorem activate_preserves_paidEndInv (db : DB) (env : ActEnv) (u : Int)
    (p : Nat) (pt : String) (g : Option Int)
    (hinv : PaidEndInv db.subscriptions) :
    PaidEndInv (activate_subscription db env u p pt g).2.1.subscriptions := by
  cases hok : (activate_subscription db env u p pt g).1.ok with
  | false =>
    obtain ⟨hdb, -⟩ := activate_not_ok db env u p pt g hok
    rw [hdb]
    exact hinv
  | true =>
    obtain ⟨plan, g0, hplan, hg, -⟩ := activate_ok_inv db env u p pt g hok
    rcases activate_cases db env u p pt g plan g0 hplan hg with
      ⟨ex, hlast, hcond, heq⟩ | ⟨ex, hlast, hncond, heq⟩ | ⟨hlast, heq⟩ <;>
      rw [heq] <;> intro s hs hact hfull
    · rcases List.mem_map.mp hs with ⟨ar, har, hfa⟩
      by_cases hid : ar.id = ex.id
      · rw [if_pos hid] at hfa
        subst hfa
        exact hinv ar har hact hfull
      · rw [if_neg hid] at hfa
        subst hfa
        exact hinv ar har hact hfull
    · rcases List.mem_map.mp hs with ⟨ar, har, hfa⟩
      by_cases hid : ar.id = ex.id
      · rw [if_pos hid] at hfa
        subst hfa
        rfl
      · rw [if_neg hid] at hfa
        subst hfa
        exact hinv ar har hact hfull
    · rcases List.mem_append.mp hs with hin | hr
      · exact hinv s hin hact hfull
      · have hsr : s = insertedRow db.nextSubId u p env.nowTs
            (endOfPeriodTs env.now.month env.now.year) env.inviteResult g0
            pt env.now.month env.now.year := by simpa using hr
        rw [hsr]
        rfl

/-- The removal sweep preserves the stamped-end-date invariant. -/
theorem sweep_preserves_paidEndInv (db : DB) (cm cy nowTs : Int)
    (hinv : PaidEndInv db.subscriptions) :
    PaidEndInv (remove_unpaid_users db cm cy nowTs).1.subscriptions := by
  unfold remove_unpaid_users
  intro s hs hact hfull
  rcases List.mem_map.mp hs with ⟨ar, har, hfa⟩
  by_cases hid : ar.id ∈ (sweepSelected db cm cy nowTs).map (fun t => t.id)
  · rw [if_pos hid] at hfa
    rw [← hfa] at hact
    cases hact
  · rw [if_neg hid] at hfa
    subst hfa
    exact hinv ar har hact hfull
